import Mathlib

/-!
A shallow embedding of the timeline-synchronized video compositing and
export core of DemoDirector (source: `src/services/geminiService.ts` and
`src/components/Editor.tsx`).  Times are modelled as rationals, fallible
steps as `Option`/`Except`, and the per-frame compositor as an explicit
list of draw operations.
-/

/-- Event kinds of `TimelineEvent.type` (`src/types.ts`). -/
inductive EventKind where
  | caption
  | zoom
  | highlight
deriving DecidableEq, Repr

/-- Optional zoom details of a timeline event (`src/types.ts`). -/
structure ZoomDetails where
  x : Option ℚ
  y : Option ℚ
  zoomScale : Option ℚ
deriving DecidableEq, Repr

/-- `TimelineEvent` from `src/types.ts`. -/
structure TimelineEvent where
  id : String
  startTime : ℚ
  endTime : ℚ
  text : String
  type : EventKind
  details : Option ZoomDetails := none
deriving DecidableEq, Repr

/-- `Subtitle` from `src/types.ts`. -/
structure Subtitle where
  startTime : ℚ
  endTime : ℚ
  text : String
deriving DecidableEq, Repr

/-- The per-event sanitization step of `analyzeVideoAndGenerateTimeline`
(`src/services/geminiService.ts` lines 276-281): if `endTime - startTime < 2.0`
then `endTime` becomes `startTime + 2.0`, all other fields unchanged. -/
def fixEvent (t : TimelineEvent) : TimelineEvent :=
  if t.endTime - t.startTime < 2 then { t with endTime := t.startTime + 2 } else t

/-- Comparison used by the `.sort((a, b) => a.startTime - b.startTime)` call. -/
def startLE (a b : TimelineEvent) : Prop := a.startTime ≤ b.startTime

instance : DecidableRel startLE := fun a b =>
  inferInstanceAs (Decidable (a.startTime ≤ b.startTime))

instance : IsTotal TimelineEvent startLE := ⟨fun a b => le_total a.startTime b.startTime⟩

instance : IsTrans TimelineEvent startLE := ⟨fun _ _ _ h h2 => le_trans h h2⟩

/-- The sanitization pass of `analyzeVideoAndGenerateTimeline`
(`src/services/geminiService.ts` lines 276-282): map `fixEvent` over the raw
list, then sort ascending by `startTime`.  `Array.prototype.sort` is a stable
sort (ES2019), embedded here as the stable `List.insertionSort`. -/
def sanitizeTimeline (timeline : List TimelineEvent) : List TimelineEvent :=
  List.insertionSort startLE (timeline.map fixEvent)

theorem fixEvent_idem (e : TimelineEvent) : fixEvent (fixEvent e) = fixEvent e := by
  by_cases h : e.endTime - e.startTime < 2
  · simp [fixEvent, h]
  · simp [fixEvent, h]

theorem map_eq_self_of_forall {α : Type} {l : List α} {f : α → α}
    (h : ∀ x ∈ l, f x = x) : l.map f = l := by
  induction l with
  | nil => rfl
  | cons a t ih =>
    simp only [List.map_cons, h a (List.mem_cons_self a t)]
    rw [ih fun x hx => h x (List.mem_cons_of_mem a hx)]

/-- C1: sanitization maps each short event (duration `< 2`) to the same event
with `endTime = startTime + 2` (and `startTime` untouched), leaves events of
duration `≥ 2` unchanged, and the result is the input so mapped, sorted
ascending by `startTime`. -/
theorem sanitizeTimeline_spec (l : List TimelineEvent) :
    (sanitizeTimeline l).Perm (l.map fun e =>
      if e.endTime - e.startTime < 2 then { e with endTime := e.startTime + 2 } else e) ∧
    List.Sorted startLE (sanitizeTimeline l) := by
  constructor
  · exact List.perm_insertionSort startLE (l.map fixEvent)
  · exact List.sorted_insertionSort startLE (l.map fixEvent)

/-- C7: sanitization is idempotent. -/
theorem sanitizeTimeline_idem (l : List TimelineEvent) :
    sanitizeTimeline (sanitizeTimeline l) = sanitizeTimeline l := by
  unfold sanitizeTimeline
  have hfix : ∀ x ∈ List.insertionSort startLE (l.map fixEvent), fixEvent x = x := by
    intro x hx
    rw [List.mem_insertionSort] at hx
    obtain ⟨y, _, rfl⟩ := List.mem_map.mp hx
    exact fixEvent_idem y
  rw [map_eq_self_of_forall hfix]
  exact (List.sorted_insertionSort startLE (l.map fixEvent)).insertionSort_eq

/-- Live-preview active-event query (`src/components/Editor.tsx` lines 72-74):
`timeline.find(e => time >= e.startTime && time <= e.endTime)` — note the
absence of any filter on the event kind. -/
def previewActiveEvent (timeline : List TimelineEvent) (time : ℚ) : Option TimelineEvent :=
  timeline.find? fun e => decide (e.startTime ≤ time) && decide (time ≤ e.endTime)

/-- Active-subtitle query, used both in live preview (`Editor.tsx` lines 78-80)
and in the export compositor (line 325):
`subtitles.find(s => time >= s.startTime && time <= s.endTime)`. -/
def activeSubtitle (subtitles : List Subtitle) (time : ℚ) : Option Subtitle :=
  subtitles.find? fun s => decide (s.startTime ≤ time) && decide (time ≤ s.endTime)

/-- Export-compositor caption query (`Editor.tsx` line 293):
`timeline.find(e => t >= e.startTime && t <= e.endTime && e.type === 'caption')`. -/
def exportCaptionEvent (timeline : List TimelineEvent) (time : ℚ) : Option TimelineEvent :=
  timeline.find? fun e =>
    decide (e.startTime ≤ time) && decide (time ≤ e.endTime) && decide (e.type = .caption)

theorem find?_first {α : Type} {p : α → Bool} (l₁ : List α) (a : α) (l₂ : List α)
    (ha : p a = true) (h₁ : ∀ x ∈ l₁, p x = false) :
    (l₁ ++ a :: l₂).find? p = some a := by
  induction l₁ with
  | nil => simpa using List.find?_cons_of_pos l₂ ha
  | cons b t ih =>
    rw [List.cons_append, List.find?_cons_of_neg _ (by simpa using h₁ b (List.mem_cons_self b t))]
    exact ih fun x hx => h₁ x (List.mem_cons_of_mem b hx)

/-- C3: the active-entry queries return at most one entry (they are `Option`
valued), any returned entry is a member of the list whose interval contains
`t`, and when several entries are simultaneously active the first matching
entry in list order is returned, without error.  Stated for the subtitle
query and the timeline-event query alike. -/
theorem activeEntry_spec (subs : List Subtitle) (tl : List TimelineEvent) (t : ℚ) :
    (∀ s, activeSubtitle subs t = some s → s ∈ subs ∧ s.startTime ≤ t ∧ t ≤ s.endTime) ∧
    (∀ l₁ s l₂, subs = l₁ ++ s :: l₂ → s.startTime ≤ t → t ≤ s.endTime →
      (∀ u ∈ l₁, ¬(u.startTime ≤ t ∧ t ≤ u.endTime)) →
      activeSubtitle subs t = some s) ∧
    (∀ e, previewActiveEvent tl t = some e → e ∈ tl ∧ e.startTime ≤ t ∧ t ≤ e.endTime) ∧
    (∀ l₁ e l₂, tl = l₁ ++ e :: l₂ → e.startTime ≤ t → t ≤ e.endTime →
      (∀ u ∈ l₁, ¬(u.startTime ≤ t ∧ t ≤ u.endTime)) →
      previewActiveEvent tl t = some e) := by
  refine ⟨fun s hs => ?_, fun l₁ s l₂ hdec h1 h2 hnone => ?_,
    fun e he => ?_, fun l₁ e l₂ hdec h1 h2 hnone => ?_⟩
  · refine ⟨List.mem_of_find?_eq_some hs, ?_⟩
    have := List.find?_some hs
    simpa using this
  · subst hdec
    exact find?_first l₁ s l₂ (by simp [h1, h2]) fun u hu => by
      simpa using hnone u hu
  · refine ⟨List.mem_of_find?_eq_some he, ?_⟩
    have := List.find?_some he
    simpa using this
  · subst hdec
    exact find?_first l₁ e l₂ (by simp [h1, h2]) fun u hu => by
      simpa using hnone u hu

/-- C3 witness: two overlapping subtitles, both active at `t = 2`; the
first-listed one is returned. -/
theorem activeEntry_spec_witness :
    activeSubtitle [⟨0, 3, "A"⟩, ⟨1, 4, "B"⟩] 2 = some ⟨0, 3, "A"⟩ :=
  (activeEntry_spec [⟨0, 3, "A"⟩, ⟨1, 4, "B"⟩] [] 2).2.1 [] ⟨0, 3, "A"⟩ [⟨1, 4, "B"⟩]
    rfl (by norm_num) (by norm_num) (by simp)

/-- C10: the live preview sets the top caption overlay from the first active
event of any kind, while the export compositor draws a caption box only for
events of kind `caption`; so at any time whose first active event is a zoom,
the preview shows an overlay (the state is `some`) that the exported frame
omits (the export query never returns that zoom event, and anything it does
return has kind `caption`). -/
theorem previewExportCaption_asymmetry (tl : List TimelineEvent) (t : ℚ)
    (e : TimelineEvent) (h1 : previewActiveEvent tl t = some e) (h2 : e.type = .zoom) :
    (previewActiveEvent tl t).isSome = true ∧
    exportCaptionEvent tl t ≠ some e ∧
    (∀ c, exportCaptionEvent tl t = some c → c.type = .caption) := by
  have hkind : ∀ c, exportCaptionEvent tl t = some c → c.type = .caption := by
    intro c hc
    have := List.find?_some hc
    simp only [Bool.and_eq_true, decide_eq_true_eq] at this
    exact this.2
  refine ⟨by rw [h1]; rfl, fun hcontra => ?_, hkind⟩
  have := hkind e hcontra
  rw [h2] at this
  cases this

/-- C10 witness: a single zoom event active at `t = 1` is shown by the
preview but produces no caption box in the export. -/
theorem previewExportCaption_asymmetry_witness :
    (previewActiveEvent [⟨"z1", 0, 4, "Zooming in", .zoom, none⟩] 1).isSome = true ∧
    exportCaptionEvent [⟨"z1", 0, 4, "Zooming in", .zoom, none⟩] 1 ≠
      some ⟨"z1", 0, 4, "Zooming in", .zoom, none⟩ ∧
    (∀ c, exportCaptionEvent [⟨"z1", 0, 4, "Zooming in", .zoom, none⟩] 1 = some c →
      c.type = .caption) :=
  previewExportCaption_asymmetry [⟨"z1", 0, 4, "Zooming in", .zoom, none⟩] 1
    ⟨"z1", 0, 4, "Zooming in", .zoom, none⟩ (by norm_num [previewActiveEvent]) rfl

/-- The mutable player state touched by the audio-sync step of
`handleTimeUpdate` (`Editor.tsx` lines 59-68): the primary (video) clock, the
secondary (audio) clock, whether the audio element exists / is paused, the
voiceover toggle, and the audio playback rate (which the handler never
touches). -/
structure PreviewState where
  videoTime : ℚ
  audioTime : ℚ
  hasAudio : Bool
  audioPaused : Bool
  voiceoverEnabled : Bool
  playbackRate : ℚ
deriving DecidableEq, Repr

/-- The audio-sync step of `handleTimeUpdate` (`Editor.tsx` lines 60-68):
bail out while exporting; otherwise, if the audio element exists, voiceover
is enabled, the audio is playing and `Math.abs(aud.currentTime - time) > 0.3`,
set `aud.currentTime = time`.  Nothing else is modified. -/
def syncAudioTick (isExporting : Bool) (s : PreviewState) : PreviewState :=
  if isExporting then s
  else if s.hasAudio && s.voiceoverEnabled && !s.audioPaused
      && decide ((3 : ℚ) / 10 < |s.audioTime - s.videoTime|) then
    { s with audioTime := s.videoTime }
  else s

/-- C4: on a live-preview tick (not exporting), if the audio clock is enabled
and playing and its divergence from the video clock exceeds `0.3`, the audio
clock is snapped to the video time; with divergence at most `0.3` the state is
left entirely unchanged; and in every case the playback rate is untouched. -/
theorem syncAudioTick_spec (s : PreviewState) :
    (s.hasAudio = true → s.voiceoverEnabled = true → s.audioPaused = false →
      (3 : ℚ) / 10 < |s.audioTime - s.videoTime| →
      (syncAudioTick false s).audioTime = s.videoTime) ∧
    (|s.audioTime - s.videoTime| ≤ (3 : ℚ) / 10 → syncAudioTick false s = s) ∧
    (syncAudioTick false s).playbackRate = s.playbackRate := by
  refine ⟨fun h1 h2 h3 h4 => ?_, fun h => ?_, ?_⟩
  · simp [syncAudioTick, h1, h2, h3, h4]
  · have : ¬((3 : ℚ) / 10 < |s.audioTime - s.videoTime|) := not_lt.mpr h
    simp [syncAudioTick, this]
  · unfold syncAudioTick
    split
    · rfl
    split <;> rfl

/-- C4 witness: audio seeded `0.5` ahead of a video clock at `0` is snapped
back to `0` by one tick. -/
theorem syncAudioTick_spec_witness :
    (syncAudioTick false ⟨0, 1 / 2, true, false, true, 1⟩).audioTime = 0 :=
  (syncAudioTick_spec ⟨0, 1 / 2, true, false, true, 1⟩).1 rfl rfl rfl (by
    rw [show |(1 : ℚ) / 2 - 0| = 1 / 2 by rw [sub_zero]; exact abs_of_nonneg (by norm_num)]
    norm_num)

/-- Failure kinds of the export pipeline (spec section 7). -/
inductive ExportFailure where
  | encoderUnsupported
  | audioDecodeError
deriving DecidableEq, Repr

/-- The codec preference list the export pipeline hands to the recorder
(`Editor.tsx` line 245): exactly one entry, `video/webm;codecs=vp9`. -/
def codecPreferenceList : List String := ["video/webm;codecs=vp9"]

/-- Encoder selection (`Editor.tsx` lines 244-247): try the codecs of
`codecPreferenceList` in order against the environment's support oracle
(the `MediaRecorder` constructor accepts or rejects a mime type); the run
fails with `encoderUnsupported` only when no listed codec is accepted. -/
def selectEncoder (supported : String → Bool) : Except ExportFailure String :=
  match codecPreferenceList.find? supported with
  | some c => .ok c
  | none => .error .encoderUnsupported

/-- C8: encoder selection fails with `encoderUnsupported` exactly when every
codec in the preference list is rejected; if any listed codec is available,
the selection succeeds with a listed, supported codec. -/
theorem selectEncoder_spec (supported : String → Bool) :
    (selectEncoder supported = .error .encoderUnsupported ↔
      ∀ c ∈ codecPreferenceList, supported c = false) ∧
    ((∃ c ∈ codecPreferenceList, supported c = true) →
      ∃ c ∈ codecPreferenceList, supported c = true ∧ selectEncoder supported = .ok c) := by
  constructor
  · unfold selectEncoder
    cases hfind : codecPreferenceList.find? supported with
    | some c =>
      simp only [reduceCtorEq, false_iff, not_forall]
      exact ⟨c, List.mem_of_find?_eq_some hfind, by simp [List.find?_some hfind]⟩
    | none =>
      simp only [true_iff]
      intro c hc
      exact Bool.eq_false_iff.mpr fun htrue =>
        (List.find?_eq_none.mp hfind c hc) htrue
  · rintro ⟨c, hc, hsupp⟩
    have : (codecPreferenceList.find? supported).isSome := by
      rw [List.find?_isSome]
      exact ⟨c, hc, hsupp⟩
    obtain ⟨d, hd⟩ := Option.isSome_iff_exists.mp this
    exact ⟨d, List.mem_of_find?_eq_some hd, List.find?_some hd, by simp [selectEncoder, hd]⟩

/-- C8 witness: with every codec reported supported, selection succeeds with
the single listed codec. -/
theorem selectEncoder_spec_witness :
    ∃ c ∈ codecPreferenceList, (fun _ => true) c = true ∧
      selectEncoder (fun _ => true) = .ok c :=
  (selectEncoder_spec fun _ => true).2 ⟨"video/webm;codecs=vp9", by simp [codecPreferenceList], rfl⟩

/-- Output formats of `renderToVideo` (`Editor.tsx` line 196). -/
inductive ExportFormat where
  | landscape
  | portrait
deriving DecidableEq, Repr

/-- `const width = format === 'landscape' ? 1280 : 720` (`Editor.tsx` line 215). -/
def outputWidth : ExportFormat → ℚ
  | .landscape => 1280
  | .portrait => 720

/-- `const height = format === 'landscape' ? 720 : 1280` (`Editor.tsx` line 216). -/
def outputHeight : ExportFormat → ℚ
  | .landscape => 720
  | .portrait => 1280

/-- `const scale = Math.max(width / vidW, height / vidH)` (`Editor.tsx` line 273). -/
def frameScale (format : ExportFormat) (vidW vidH : ℚ) : ℚ :=
  max (outputWidth format / vidW) (outputHeight format / vidH)

/-- `const dx = (width - scaledW) / 2` (`Editor.tsx` line 276). -/
def frameDx (format : ExportFormat) (vidW vidH : ℚ) : ℚ :=
  (outputWidth format - vidW * frameScale format vidW vidH) / 2

/-- `const dy = (height - scaledH) / 2` (`Editor.tsx` line 277). -/
def frameDy (format : ExportFormat) (vidW vidH : ℚ) : ℚ :=
  (outputHeight format - vidH * frameScale format vidW vidH) / 2

/-- The canvas operations issued by one `drawFrame` call, in order. -/
inductive DrawOp where
  | fillRect (color : String) (x y w h : ℚ)
  | drawImage (dx dy dw dh : ℚ)
  | captionBox (text : String)
  | subtitleText (text : String)
deriving DecidableEq, Repr

/-- The compositing body of `drawFrame` (`Editor.tsx` lines 270-341) as the
ordered list of canvas operations it issues at source time `t`: fill the whole
output with `#000`, draw the cover-scaled source centered, then the caption
box for the first active `caption` event (if any), then — unless in GIF
mode — the subtitle text for the first active subtitle (if any). -/
def drawFrameOps (timeline : List TimelineEvent) (subtitles : List Subtitle)
    (format : ExportFormat) (isGifMode : Bool) (vidW vidH t : ℚ) : List DrawOp :=
  [DrawOp.fillRect "#000" 0 0 (outputWidth format) (outputHeight format),
   DrawOp.drawImage (frameDx format vidW vidH) (frameDy format vidW vidH)
     (vidW * frameScale format vidW vidH) (vidH * frameScale format vidW vidH)]
  ++ (match exportCaptionEvent timeline t with
      | some evt => [DrawOp.captionBox evt.text]
      | none => [])
  ++ (if isGifMode then []
      else match activeSubtitle subtitles t with
        | some sub => [DrawOp.subtitleText sub.text]
        | none => [])

/-- C6: every composited frame first fills the whole output with opaque black,
then draws the source scaled by `max(outW/srcW, outH/srcH)` to
`(srcW*scale, srcH*scale)` centered at `((outW - srcW*scale)/2,
(outH - srcH*scale)/2)`; the scaled image covers the output in both axes
(offsets `≤ 0`), i.e. overflow is cropped and no letterboxing occurs. -/
theorem drawFrame_layout (tl : List TimelineEvent) (subs : List Subtitle)
    (format : ExportFormat) (isGifMode : Bool) (vidW vidH t : ℚ)
    (hw : 0 < vidW) (hh : 0 < vidH) :
    (drawFrameOps tl subs format isGifMode vidW vidH t).take 2 =
      [DrawOp.fillRect "#000" 0 0 (outputWidth format) (outputHeight format),
       DrawOp.drawImage ((outputWidth format - vidW * frameScale format vidW vidH) / 2)
         ((outputHeight format - vidH * frameScale format vidW vidH) / 2)
         (vidW * frameScale format vidW vidH) (vidH * frameScale format vidW vidH)] ∧
    frameScale format vidW vidH = max (outputWidth format / vidW) (outputHeight format / vidH) ∧
    outputWidth format ≤ vidW * frameScale format vidW vidH ∧
    outputHeight format ≤ vidH * frameScale format vidW vidH ∧
    frameDx format vidW vidH ≤ 0 ∧ frameDy format vidW vidH ≤ 0 := by
  have hcoverW : outputWidth format ≤ vidW * frameScale format vidW vidH := by
    have h1 : outputWidth format / vidW ≤ frameScale format vidW vidH := le_max_left _ _
    calc outputWidth format = vidW * (outputWidth format / vidW) := by
          field_simp
      _ ≤ vidW * frameScale format vidW vidH := by
          exact mul_le_mul_of_nonneg_left h1 hw.le
  have hcoverH : outputHeight format ≤ vidH * frameScale format vidW vidH := by
    have h1 : outputHeight format / vidH ≤ frameScale format vidW vidH := le_max_right _ _
    calc outputHeight format = vidH * (outputHeight format / vidH) := by
          field_simp
      _ ≤ vidH * frameScale format vidW vidH := by
          exact mul_le_mul_of_nonneg_left h1 hh.le
  refine ⟨?_, rfl, hcoverW, hcoverH, ?_, ?_⟩
  · simp [drawFrameOps, frameDx, frameDy]
  · unfold frameDx
    exact div_nonpos_of_nonpos_of_nonneg (by linarith) (by norm_num)
  · unfold frameDy
    exact div_nonpos_of_nonpos_of_nonneg (by linarith) (by norm_num)

/-- C6 witness: a `1920×1080` source into the landscape profile. -/
theorem drawFrame_layout_witness :
    (drawFrameOps [] [] .landscape false 1920 1080 0).take 2 =
      [DrawOp.fillRect "#000" 0 0 (outputWidth .landscape) (outputHeight .landscape),
       DrawOp.drawImage ((outputWidth .landscape - 1920 * frameScale .landscape 1920 1080) / 2)
         ((outputHeight .landscape - 1080 * frameScale .landscape 1920 1080) / 2)
         (1920 * frameScale .landscape 1920 1080) (1080 * frameScale .landscape 1920 1080)] ∧
    frameScale .landscape 1920 1080 =
      max (outputWidth .landscape / 1920) (outputHeight .landscape / 1080) ∧
    outputWidth .landscape ≤ 1920 * frameScale .landscape 1920 1080 ∧
    outputHeight .landscape ≤ 1080 * frameScale .landscape 1920 1080 ∧
    frameDx .landscape 1920 1080 ≤ 0 ∧ frameDy .landscape 1920 1080 ≤ 0 :=
  drawFrame_layout [] [] .landscape false 1920 1080 0 (by norm_num) (by norm_num)

/-- Event selection of `handleGenerateMagicGifs` (`Editor.tsx` line 388):
`timeline.filter(t => t.type !== 'zoom').slice(0, 3)`. -/
def selectGifEvents (timeline : List TimelineEvent) : List TimelineEvent :=
  (timeline.filter fun t => decide (t.type ≠ .zoom)).take 3

/-- Clip windows of `handleGenerateMagicGifs` (`Editor.tsx` lines 391-395):
for each selected event, `[evt.startTime, min(evt.startTime + 3, duration)]`. -/
def magicGifClips (timeline : List TimelineEvent) (duration : ℚ) : List (ℚ × ℚ) :=
  (selectGifEvents timeline).map fun evt => (evt.startTime, min (evt.startTime + 3) duration)

/-- Audio-mix gate of `renderToVideo` (`Editor.tsx` line 224):
`!isGifMode && isVoiceoverEnabled && audioBlob`. -/
def audioMixEnabled (isGifMode voiceoverEnabled hasAudioBlob : Bool) : Bool :=
  !isGifMode && voiceoverEnabled && hasAudioBlob

/-- Recorder bitrate of `renderToVideo` (`Editor.tsx` line 246):
`isGifMode ? 2500000 : 5000000`. -/
def videoBitsPerSecond (isGifMode : Bool) : ℕ :=
  if isGifMode then 2500000 else 5000000

/-- C5: highlight extraction takes exactly the first 3 non-zoom timeline
events in original order (a prefix of the non-zoom filtrate and a sublist of
the timeline); with fewer than 3 eligible events it yields one clip per
eligible event (length `= min 3 #eligible`, total function, no error); each
clip window is `[startTime, min(startTime + 3, duration)]`; and a GIF render
mixes no audio, draws no subtitle, and uses a lower bitrate than a full
export. -/
theorem magicGifs_spec (tl : List TimelineEvent) (duration : ℚ) :
    (selectGifEvents tl).IsPrefix (tl.filter fun t => decide (t.type ≠ .zoom)) ∧
    (selectGifEvents tl).Sublist tl ∧
    (∀ e ∈ selectGifEvents tl, e.type ≠ .zoom) ∧
    (selectGifEvents tl).length = min 3 (tl.filter fun t => decide (t.type ≠ .zoom)).length ∧
    magicGifClips tl duration =
      (selectGifEvents tl).map (fun evt => (evt.startTime, min (evt.startTime + 3) duration)) ∧
    (∀ voiceover hasAudio, audioMixEnabled true voiceover hasAudio = false) ∧
    (∀ subs vidW vidH t txt,
      DrawOp.subtitleText txt ∉ drawFrameOps tl subs .landscape true vidW vidH t) ∧
    videoBitsPerSecond true < videoBitsPerSecond false := by
  refine ⟨List.take_prefix _ _, ?_, ?_, ?_, rfl, ?_, ?_, by norm_num [videoBitsPerSecond]⟩
  · exact ((List.take_prefix _ _).sublist).trans (List.filter_sublist tl)
  · intro e he
    have hmem : e ∈ tl.filter fun t => decide (t.type ≠ .zoom) :=
      (List.take_prefix _ _).sublist.mem he
    simpa using List.of_mem_filter hmem
  · exact List.length_take 3 _
  · intro voiceover hasAudio
    simp [audioMixEnabled]
  · intro subs vidW vidH t txt
    unfold drawFrameOps
    simp only [if_true, List.append_nil, List.mem_append]
    rintro (h | h)
    · simp at h
    · revert h
      cases exportCaptionEvent tl t <;> simp

/-- C5 witness: a timeline with one zoom and two non-zoom events yields two
clips, the last truncated by the media duration. -/
theorem magicGifs_spec_witness :
    (∀ e ∈ selectGifEvents
        [⟨"z", 0, 4, "", .zoom, none⟩, ⟨"c1", 1, 3, "a", .caption, none⟩,
         ⟨"h1", 9, 11, "b", .highlight, none⟩], e.type ≠ .zoom) ∧
    magicGifClips
        [⟨"z", 0, 4, "", .zoom, none⟩, ⟨"c1", 1, 3, "a", .caption, none⟩,
         ⟨"h1", 9, 11, "b", .highlight, none⟩] 10 =
      (selectGifEvents
        [⟨"z", 0, 4, "", .zoom, none⟩, ⟨"c1", 1, 3, "a", .caption, none⟩,
         ⟨"h1", 9, 11, "b", .highlight, none⟩]).map
        (fun evt => (evt.startTime, min (evt.startTime + 3) 10)) :=
  ⟨(magicGifs_spec
      [⟨"z", 0, 4, "", .zoom, none⟩, ⟨"c1", 1, 3, "a", .caption, none⟩,
       ⟨"h1", 9, 11, "b", .highlight, none⟩] 10).2.2.1,
   (magicGifs_spec
      [⟨"z", 0, 4, "", .zoom, none⟩, ⟨"c1", 1, 3, "a", .caption, none⟩,
       ⟨"h1", 9, 11, "b", .highlight, none⟩] 10).2.2.2.2.1⟩

/-- A completed export artifact; `hasNarration` records whether the narration
track was mixed into the recorded stream. -/
structure ExportArtifact where
  hasNarration : Bool
deriving DecidableEq, Repr

/-- The artifact-producing skeleton of `renderToVideo` (`Editor.tsx`
lines 200-257) restricted to the narration-audio setup.  The body runs inside
`new Promise(async resolve => ...)`; when the audio-mix gate (line 224) is
taken, `await audioContext.decodeAudioData(arrayBuffer)` (line 230) has no
surrounding try/catch, so a decode failure escapes the executor and `resolve`
is never called: the caller obtains no blob, modelled as `none`.  On the
other paths the recorder runs and a blob is resolved, modelled as `some`. -/
def renderToVideoArtifact (isGifMode voiceoverEnabled : Bool) (audioBlob : Option ℕ)
    (decodeAudioData : ℕ → Except ExportFailure ℕ) : Option ExportArtifact :=
  match isGifMode, voiceoverEnabled, audioBlob with
  | false, true, some blob =>
    match decodeAudioData blob with
    | .ok _ => some ⟨true⟩
    | .error _ => none
  | _, _, _ => some ⟨false⟩

/-- C9 counterexample: at the concrete failing input (full export, voiceover
on, narration blob present, decoder failing), the run yields no artifact at
all — contradicting the claim that the export still completes and returns its
artifact without narration. -/
theorem audioDecode_counterexample :
    renderToVideoArtifact false true (some 0) (fun _ => .error .audioDecodeError) = none :=
  rfl

/-- C9 amended: a narration decode failure during export setup is fatal to
the run — the error escapes the promise executor, the recorder never starts,
and no artifact is produced; when the decode succeeds (or the audio path is
not taken) an artifact is produced. -/
theorem audioDecode_fatal (blob : ℕ) (decodeAudioData : ℕ → Except ExportFailure ℕ)
    (e : ExportFailure) (h : decodeAudioData blob = .error e) :
    renderToVideoArtifact false true (some blob) decodeAudioData = none ∧
    (∀ buf, decodeAudioData blob = .ok buf →
      renderToVideoArtifact false true (some blob) decodeAudioData = some ⟨true⟩) := by
  constructor
  · simp [renderToVideoArtifact, h]
  · intro buf hbuf
    rw [hbuf] at h
    cases h

/-- C9 amended witness. -/
theorem audioDecode_fatal_witness :
    renderToVideoArtifact false true (some 0) (fun _ => .error .audioDecodeError) = none ∧
    (∀ buf, (fun _ => (.error .audioDecodeError : Except ExportFailure ℕ)) 0 = .ok buf →
      renderToVideoArtifact false true (some 0) (fun _ => .error .audioDecodeError) =
        some ⟨true⟩) :=
  audioDecode_fatal 0 (fun _ => .error .audioDecodeError) .audioDecodeError rfl

/-- The per-frame progress update of `renderToVideo` (`Editor.tsx` line 345):
`Math.floor(((offlineVideo.currentTime - startTime) / (endTime - startTime)) * 100)`.
Note: a floor, with no clamping. -/
def exportProgressReport (startTime endTime pos : ℚ) : ℤ :=
  ⌊(pos - startTime) / (endTime - startTime) * 100⌋

/-- The `drawFrame` loop of `renderToVideo` (`Editor.tsx` lines 263-356),
projected onto its progress reports: `ps` is the sequence of source positions
observed at successive frame callbacks; the loop stops (recorder.stop, no
report) as soon as `currentTime >= endTime`, and otherwise composites the
frame and reports the floored percentage. -/
def drawFrameProgress (startTime endTime : ℚ) : List ℚ → List ℤ
  | [] => []
  | pos :: rest =>
    if endTime ≤ pos then []
    else exportProgressReport startTime endTime pos :: drawFrameProgress startTime endTime rest

/-- Modelled from the spec: the progress formula the spec asserts,
`clamp(100 * (currentPos - startTime) / (endTime - startTime), 0, 100)` —
for comparison against the code's `exportProgressReport`. -/
def specClampProgress (startTime endTime pos : ℚ) : ℚ :=
  min 100 (max 0 ((pos - startTime) / (endTime - startTime) * 100))

theorem exportProgressReport_mono (s e : ℚ) (hse : s < e) {p q : ℚ} (hpq : p ≤ q) :
    exportProgressReport s e p ≤ exportProgressReport s e q := by
  unfold exportProgressReport
  apply Int.floor_le_floor
  have hpos : (0 : ℚ) < e - s := by linarith
  have hdiv : (p - s) / (e - s) ≤ (q - s) / (e - s) :=
    div_le_div_of_nonneg_right (by linarith) hpos.le
  exact mul_le_mul_of_nonneg_right hdiv (by norm_num)

theorem exportProgressReport_bounds (s e p : ℚ) (hse : s < e) (hsp : s ≤ p) (hpe : p < e) :
    0 ≤ exportProgressReport s e p ∧ exportProgressReport s e p < 100 := by
  have hpos : (0 : ℚ) < e - s := by linarith
  constructor
  · apply Int.le_floor.mpr
    push_cast
    exact mul_nonneg (div_nonneg (by linarith) hpos.le) (by norm_num)
  · apply Int.floor_lt.mpr
    push_cast
    rw [div_mul_eq_mul_div, div_lt_iff₀ hpos]
    nlinarith

theorem drawFrameProgress_eq (s e : ℚ) (ps : List ℚ) :
    drawFrameProgress s e ps =
      (ps.takeWhile fun p => decide (p < e)).map (exportProgressReport s e) := by
  induction ps with
  | nil => rfl
  | cons p rest ih =>
    by_cases h : e ≤ p
    · simp [drawFrameProgress, h, List.takeWhile_cons, not_lt.mpr h]
    · simp [drawFrameProgress, h, List.takeWhile_cons, not_le.mp h, ih]

theorem drawFrameProgress_mem (s e : ℚ) :
    ∀ ps : List ℚ, ∀ v ∈ drawFrameProgress s e ps,
      ∃ p ∈ ps, p < e ∧ v = exportProgressReport s e p := by
  intro ps
  induction ps with
  | nil => intro v hv; cases hv
  | cons p rest ih =>
    intro v hv
    by_cases h : e ≤ p
    · rw [drawFrameProgress, if_pos h] at hv
      cases hv
    · rw [drawFrameProgress, if_neg h] at hv
      rcases List.mem_cons.mp hv with rfl | hv2
      · exact ⟨p, List.mem_cons_self p rest, not_le.mp h, rfl⟩
      · obtain ⟨q, hq, hqe, hvq⟩ := ih v hv2
        exact ⟨q, List.mem_cons_of_mem p hq, hqe, hvq⟩

theorem drawFrameProgress_chain (s e : ℚ) (hse : s < e) :
    ∀ ps : List ℚ, ps.Chain' (· ≤ ·) → (drawFrameProgress s e ps).Chain' (· ≤ ·) := by
  intro ps
  induction ps with
  | nil => intro _; exact List.chain'_nil
  | cons p rest ih =>
    intro hch
    rw [List.chain'_cons'] at hch
    by_cases h : e ≤ p
    · rw [drawFrameProgress, if_pos h]
      exact List.chain'_nil
    · rw [drawFrameProgress, if_neg h, List.chain'_cons']
      refine ⟨?_, ih hch.2⟩
      intro b hb
      cases rest with
      | nil => cases hb
      | cons q rest2 =>
        by_cases h2 : e ≤ q
        · rw [drawFrameProgress, if_pos h2] at hb
          cases hb
        · rw [drawFrameProgress, if_neg h2] at hb
          have hb2 : exportProgressReport s e q = b := by
            simpa using hb
          rw [← hb2]
          exact exportProgressReport_mono s e hse (hch.1 q rfl)

/-- C2 counterexample: at one frame of the window `[0, 3)` observed at
position `1`, the code reports `⌊100/3⌋ = 33`, not the spec's clamped value
`100/3`; and across the successful run `[0, 3/2, 29/10, 3]` the reported
sequence is `[0, 50, 96]` — the value `100` is never reported (the loop
stops, without reporting, at the first position `≥ endTime`). -/
theorem exportProgress_counterexample :
    drawFrameProgress 0 3 [1] = [33] ∧
    specClampProgress 0 3 1 = 100 / 3 ∧
    ((33 : ℚ) ≠ 100 / 3) ∧
    drawFrameProgress 0 3 [0, 3 / 2, 29 / 10, 3] = [0, 50, 96] ∧
    (100 : ℤ) ∉ drawFrameProgress 0 3 [0, 3 / 2, 29 / 10, 3] := by
  refine ⟨?_, ?_, by norm_num, ?_, ?_⟩
  · simp [drawFrameProgress, exportProgressReport]
    norm_num [Int.floor_eq_iff]
  · norm_num [specClampProgress]
  · norm_num [drawFrameProgress, exportProgressReport, Int.floor_eq_iff]
  · norm_num [drawFrameProgress, exportProgressReport, Int.floor_eq_iff]

/-- C2 amended: after each composited frame the reported progress is
`⌊100 * (pos - startTime) / (endTime - startTime)⌋` — a floor, with no
clamping; over a run whose observed positions are non-decreasing and start at
or after `startTime`, the reported sequence is non-decreasing and every
reported value lies in `[0, 100)` — the value `100` is never reported, the
loop stopping without a report once the position reaches `endTime`. -/
theorem exportProgress_amended (s e : ℚ) (ps : List ℚ) (hse : s < e)
    (hmono : ps.Chain' (· ≤ ·)) (hs : ∀ p ∈ ps, s ≤ p) :
    drawFrameProgress s e ps =
      (ps.takeWhile fun p => decide (p < e)).map (exportProgressReport s e) ∧
    (drawFrameProgress s e ps).Chain' (· ≤ ·) ∧
    (∀ v ∈ drawFrameProgress s e ps, 0 ≤ v ∧ v < 100) := by
  refine ⟨drawFrameProgress_eq s e ps, drawFrameProgress_chain s e hse ps hmono, ?_⟩
  intro v hv
  obtain ⟨p, hp, hpe, rfl⟩ := drawFrameProgress_mem s e ps v hv
  exact exportProgressReport_bounds s e p hse (hs p hp) hpe

/-- C2 amended witness: the window `[0, 3)` observed at positions `[0, 1]`. -/
theorem exportProgress_amended_witness :
    drawFrameProgress 0 3 [0, 1] =
      (([0, 1] : List ℚ).takeWhile fun p => decide (p < 3)).map (exportProgressReport 0 3) ∧
    (drawFrameProgress 0 3 [0, 1]).Chain' (· ≤ ·) ∧
    (∀ v ∈ drawFrameProgress 0 3 [0, 1], 0 ≤ v ∧ v < 100) :=
  exportProgress_amended 0 3 [0, 1] (by norm_num)
    (by norm_num [List.chain'_cons])
    (by rintro p hp; rcases List.mem_cons.mp hp with rfl | hp2
        · norm_num
        · rcases List.mem_cons.mp hp2 with rfl | hp3
          · norm_num
          · cases hp3)
